import Mathlib

/-!
Verification of the charisma interactive code-generation CLI
(src/charisma.js) against its natural-language specification.

The JavaScript source is shallowly embedded: pure string manipulation
becomes Lean functions on `String` / `List Char`, the file system and
history file become explicit state, external effects (the generation
API call, `execSync`, `axios.post`) become oracle parameters of type
`Except`, and JavaScript exceptions become `Except` results.  A
try/catch block is embedded as a `match` on the `Except` value of its
body.
-/

/-- One record of the persisted history log.  `saveHistory` in the
source pushes `{timestamp, prompt, lang, file}` (the generated code
itself is not persisted). -/
structure HistoryEntry where
  timestamp : String
  prompt : String
  lang : String
  file : String
deriving DecidableEq, Repr

/-- The state of the backing history file `charisma_history.json`:
absent, present but not valid JSON (JSON.parse throws), or present and
deserializing to a list of entries.  Serialization is modelled at the
value level: writing `JSON.stringify l` yields `wellFormed l`. -/
inductive HistFile where
  | absent : HistFile
  | malformed : HistFile
  | wellFormed (entries : List HistoryEntry) : HistFile
deriving DecidableEq, Repr

/-- One row of the `formatters` table: the format command and the file
extension for a language. -/
structure FormatterSpec where
  cmd : String
  ext : String
deriving DecidableEq, Repr

/-- The static `formatters` object of the source, as a partial map from
language name to its spec.  `formatters[lang]` on an unknown language is
`undefined`, modelled as `none`. -/
def formatters (lang : String) : Option FormatterSpec :=
  match lang with
  | "C" => some ⟨"clang-format -i", ".c"⟩
  | "C++" => some ⟨"clang-format -i", ".cpp"⟩
  | "Python" => some ⟨"black", ".py"⟩
  | "JavaScript" => some ⟨"prettier --write", ".js"⟩
  | "Java" => some ⟨"clang-format -i", ".java"⟩
  | "Go" => some ⟨"gofmt -w", ".go"⟩
  | "Ruby" => some ⟨"rufo", ".rb"⟩
  | _ => none

/-- `Object.keys(formatters)`, the menu shown by `languageSelector`. -/
def languageKeys : List String :=
  ["C", "C++", "Python", "JavaScript", "Java", "Go", "Ruby"]

/-- `languageSelector`: the user either cancels (`keyInSelect` returns
-1, modelled `none`) which falls back to JavaScript, or picks an index
into the key list. -/
def languageSelector (sel : Option Nat) : String :=
  match sel with
  | none => "JavaScript"
  | some i => languageKeys.getD i "JavaScript"

/-- The extension `formatters[lang].ext` used at the start of the
new-code branch of `main`; the empty string stands for the unreachable
unknown-language case. -/
def extOf (lang : String) : String :=
  match formatters lang with
  | some f => f.ext
  | none => ""

/-- Membership in the case-insensitive character class `[a-z0-9]` with
the `i` flag, i.e. the complement of the regex `/[^a-z0-9]/gi` used by
`getFilename`.  Stated on code points. -/
def isAlnumCI (c : Char) : Bool :=
  (97 ≤ c.toNat && c.toNat ≤ 122) ||
  (65 ≤ c.toNat && c.toNat ≤ 90) ||
  (48 ≤ c.toNat && c.toNat ≤ 57)

/-- Membership in the lower-case class `[a-z0-9]` (no `i` flag). -/
def isLowerAlnum (c : Char) : Bool :=
  (97 ≤ c.toNat && c.toNat ≤ 122) || (48 ≤ c.toNat && c.toNat ≤ 57)

/-- JavaScript `String.prototype.toLowerCase` restricted to one
character, for the ASCII range the source manipulates: A-Z maps to a-z,
everything else is unchanged. -/
def toLowerJS (c : Char) : Char :=
  if 65 ≤ c.toNat && c.toNat ≤ 90 then Char.ofNat (c.toNat + 32) else c

/-- `base.replace(/[^a-z0-9]/gi, '_')`: each character outside the
case-insensitive class is replaced by one underscore (the `g` flag
replaces per character, not per run). -/
def replaceUnsafe (l : List Char) : List Char :=
  l.map fun c => if isAlnumCI c then c else '_'

/-- The `safe` base name computed by `getFilename`:
`base.replace(/[^a-z0-9]/gi, '_').toLowerCase()`. -/
def sanitize (s : String) : String :=
  ⟨(replaceUnsafe s.data).map toLowerJS⟩

/-- The spec's reading of the same derivation, in the spec's order:
lowercase the prompt first, then replace every character outside
`[a-z0-9]` with an underscore. -/
def sanitizeSpec (s : String) : String :=
  ⟨(s.data.map toLowerJS).map fun c => if isLowerAlnum c then c else '_'⟩

/-- The output directory `./generated` (`path.resolve` makes it
absolute at run time; the model keeps the relative name). -/
def outputDir : String := "generated"

/-- `path.join` for the one two-component use in the source. -/
def pathJoin (a b : String) : String := a ++ "/" ++ b

/-- `getFilename(base, ext)`: sanitized base plus extension, placed
under the output directory. -/
def getFilename (base ext : String) : String :=
  pathJoin outputDir (sanitize base ++ ext)

/-- JavaScript `String.prototype.trim` as applied by `getPrompt`:
leading and trailing whitespace removed. -/
def jsTrim (s : String) : String :=
  ⟨((s.data.dropWhile Char.isWhitespace).reverse.dropWhile Char.isWhitespace).reverse⟩

/-- `cmd.split(' ')[0]`: the binary name of a formatter command. -/
def headWord (s : String) : String := (s.splitOn " ").headD ""

/-- `checkFormatter(lang)` with `execSync` abstracted as an oracle from
command line to `Except` (a JavaScript throw is `.error`).  The whole
body after the table lookup sits in a try/catch: a `TypeError` from
`formatter.cmd` on an unknown language and a failing `execSync` are both
caught and produce `null` (`none`); the result is an `Except` so that
never throwing to the caller is a provable statement. -/
def checkFormatter (lang : String) (execOracle : String → Except String String) :
    Except String (Option String) :=
  match formatters lang with
  | none => Except.ok none
  | some f =>
    match execOracle (headWord f.cmd ++ " --version") with
    | Except.ok _ => Except.ok (some f.cmd)
    | Except.error _ => Except.ok none

/-- The file system under the output directory and the gist branch, as
a map from path to content; `none` is an absent file. -/
def Files : Type := String → Option String

/-- `fs.writeFileSync(filename, code)` as performed by `writeCode`:
creates or silently overwrites. -/
def writeCode (files : Files) (filename code : String) : Files :=
  fun p => if p = filename then some code else files p

/-- `saveHistory(prompt, code, lang, file)`: reads the backing file
(empty list when absent, JSON.parse throws on malformed content —
`.error`), pushes `{timestamp, prompt, lang, file}` (note `code` is a
parameter but is not stored), and rewrites the whole file.  The
timestamp `new Date().toISOString()` is an ambient input, passed in. -/
def saveHistory (hist : HistFile) (ts prompt code lang file : String) :
    Except Unit HistFile :=
  match hist with
  | HistFile.absent =>
    let _ := code
    Except.ok (HistFile.wellFormed [⟨ts, prompt, lang, file⟩])
  | HistFile.malformed => Except.error ()
  | HistFile.wellFormed l =>
    Except.ok (HistFile.wellFormed (l ++ [⟨ts, prompt, lang, file⟩]))

/-- `viewHistory()`: absent file prints "No history yet." and shows no
entries; malformed content makes JSON.parse throw (`.error`); otherwise
the entries displayed are `history.slice(-5)`, i.e. the final segment
dropping all but the last five. -/
def viewHistory (hist : HistFile) : Except Unit (List HistoryEntry) :=
  match hist with
  | HistFile.absent => Except.ok []
  | HistFile.malformed => Except.error ()
  | HistFile.wellFormed l => Except.ok (l.drop (l.length - 5))

/-- The gist payload built by `createGist`: description (defaulted when
the optional input is empty, JavaScript `||`), the `public` flag, and
the `files` object with its single computed key. -/
structure GistPayload where
  description : String
  isPublic : Bool
  files : List (String × String)
deriving DecidableEq, Repr

/-- The HTTP POST issued by `createGist`: URL, payload and the
Authorization header value. -/
structure GistRequest where
  url : String
  payload : GistPayload
  authHeader : String
deriving DecidableEq, Repr

/-- The request `createGist(filename, code, token, description,
isPrivate)` constructs and sends via axios. -/
def createGistRequest (filename code token description : String)
    (isPrivate : Bool) : GistRequest :=
  { url := "https://api.github.com/gists"
    payload :=
      { description := if description = "" then "Generated Code Gist" else description
        isPublic := !isPrivate
        files := [(filename, code)] }
    authHeader := "token " ++ token }

/-- The inputs of one `saveHistory` call made on the success path of a
new-code iteration. -/
structure GenRecord where
  ts : String
  prompt : String
  code : String
  lang : String
  file : String
deriving DecidableEq, Repr

/-- The history entry that `saveHistory` persists for one call. -/
def recordEntry (r : GenRecord) : HistoryEntry :=
  ⟨r.ts, r.prompt, r.lang, r.file⟩

/-- A sequence of `saveHistory` calls, each threading the backing file
to the next; any throw aborts the sequence. -/
def appendAll (hist : HistFile) : List GenRecord → Except Unit HistFile
  | [] => Except.ok hist
  | r :: rs =>
    match saveHistory hist r.ts r.prompt r.code r.lang r.file with
    | Except.ok h => appendAll h rs
    | Except.error e => Except.error e

/-- The persistent state one `main` loop iteration can touch: the
written files and the history file. -/
structure FSState where
  files : Files
  hist : HistFile

/-- One menu selection of the `main` loop together with every ambient
input and external outcome that iteration consumes: user answers,
the clock, the generation call result, the `execSync` oracle. -/
inductive MenuAction where
  | exitChoice : MenuAction
  | viewHist : MenuAction
  | gist (token description : String) (isPrivate : Bool) (filename : String)
      (postResult : Except String String) : MenuAction
  | newCode (rawPrompt : String) (sel : Option Nat) (ts : String)
      (genResult : Except String String)
      (preview shouldFormat shouldCopy : Bool)
      (execOracle : String → Except String String) : MenuAction

/-- How one iteration of the `while (true)` loop in `main` ends:
back to the menu with a new state, `break` (explicit exit or menu
cancellation), or an exception escaping the loop, which rejects the
`main()` promise and kills the process. -/
inductive StepResult where
  | next (fs : FSState) : StepResult
  | exited : StepResult
  | crashed : StepResult

/-- One iteration of `main`.  The new-code branch mirrors the source's
try/catch: the generation call and `saveHistory` sit inside the try
(their throws print a message and return to the menu); `previewCode`,
`formatCode`, `copyToClipboard` catch or avoid their own errors and do
not change the modelled state (the formatter rewrites the file only
through an external binary).  The gist branch reads the named file with
no try around `fs.readFileSync`, and `viewHistory` parses the history
file with no try, so those throws escape the loop. -/
def mainStep (fs : FSState) (a : MenuAction) : StepResult :=
  match a with
  | MenuAction.exitChoice => StepResult.exited
  | MenuAction.viewHist =>
    match viewHistory fs.hist with
    | Except.ok _ => StepResult.next fs
    | Except.error _ => StepResult.crashed
  | MenuAction.gist _token _description _isPrivate filename _postResult =>
    match fs.files filename with
    | none => StepResult.crashed
    | some _code => StepResult.next fs
  | MenuAction.newCode rawPrompt sel ts genResult _preview _shouldFormat _shouldCopy execOracle =>
    let prompt := jsTrim rawPrompt
    let lang := languageSelector sel
    let ext := extOf lang
    let filename := getFilename prompt ext
    match genResult with
    | Except.error _ => StepResult.next fs
    | Except.ok code =>
      let files1 := writeCode fs.files filename code
      let _ := checkFormatter lang execOracle
      match saveHistory fs.hist ts prompt code lang filename with
      | Except.ok h => StepResult.next ⟨files1, h⟩
      | Except.error _ => StepResult.next ⟨files1, fs.hist⟩

/-! ## Helper lemmas -/

theorem toNat_ofNat_valid (n : Nat) (h : n.isValidChar) :
    (Char.ofNat n).toNat = n := by
  unfold Char.ofNat
  rw [dif_pos h]
  unfold Char.ofNatAux Char.toNat
  simp [UInt32.toNat, UInt32.ofNat']

theorem toLowerJS_of_upper (c : Char) (h1 : 65 ≤ c.toNat) (h2 : c.toNat ≤ 90) :
    (toLowerJS c).toNat = c.toNat + 32 := by
  unfold toLowerJS
  rw [if_pos (by simp [h1, h2])]
  exact toNat_ofNat_valid _ (Or.inl (by omega))

theorem toLowerJS_of_not_upper (c : Char) (h : ¬ (65 ≤ c.toNat ∧ c.toNat ≤ 90)) :
    toLowerJS c = c := by
  unfold toLowerJS
  rw [if_neg]
  simp only [Bool.and_eq_true, decide_eq_true_eq]
  omega

theorem sanitizeChar_comm (c : Char) :
    toLowerJS (if isAlnumCI c then c else '_') =
    (if isLowerAlnum (toLowerJS c) then toLowerJS c else '_') := by
  by_cases hU : 65 ≤ c.toNat ∧ c.toNat ≤ 90
  · have hA : isAlnumCI c = true := by
      simp only [isAlnumCI, Bool.or_eq_true, Bool.and_eq_true, decide_eq_true_eq]
      omega
    have hlow : (toLowerJS c).toNat = c.toNat + 32 := toLowerJS_of_upper c hU.1 hU.2
    have hL : isLowerAlnum (toLowerJS c) = true := by
      simp only [isLowerAlnum, Bool.or_eq_true, Bool.and_eq_true, decide_eq_true_eq]
      omega
    rw [if_pos hA, if_pos hL]
  · have hl : toLowerJS c = c := toLowerJS_of_not_upper c hU
    by_cases hA : isAlnumCI c = true
    · have hL : isLowerAlnum (toLowerJS c) = true := by
        simp only [isAlnumCI, Bool.or_eq_true, Bool.and_eq_true, decide_eq_true_eq] at hA
        rw [hl]
        simp only [isLowerAlnum, Bool.or_eq_true, Bool.and_eq_true, decide_eq_true_eq]
        omega
      rw [if_pos hA, if_pos hL, hl]
    · have hL : ¬ (isLowerAlnum (toLowerJS c) = true) := by
        simp only [isAlnumCI, Bool.or_eq_true, Bool.and_eq_true, decide_eq_true_eq] at hA
        rw [hl]
        simp only [isLowerAlnum, Bool.or_eq_true, Bool.and_eq_true, decide_eq_true_eq]
        omega
      rw [if_neg hA, if_neg hL]
      decide

theorem sanitize_eq_sanitizeSpec (s : String) : sanitize s = sanitizeSpec s := by
  unfold sanitize sanitizeSpec replaceUnsafe
  congr 1
  rw [List.map_map, List.map_map]
  refine congrArg (fun f => List.map f s.data) (funext fun c => ?_)
  simpa [Function.comp] using sanitizeChar_comm c

theorem appendAll_wellFormed (rs : List GenRecord) :
    ∀ l : List HistoryEntry,
      appendAll (HistFile.wellFormed l) rs =
        Except.ok (HistFile.wellFormed (l ++ rs.map recordEntry)) := by
  induction rs with
  | nil => intro l; simp [appendAll]
  | cons r rs ih =>
    intro l
    simp only [appendAll, saveHistory, List.map_cons]
    rw [ih]
    simp [recordEntry]

theorem mainStep_newCode_ok (fs : FSState) (raw : String) (sel : Option Nat)
    (ts code : String) (pv fm cp : Bool) (ex : String → Except String String) :
    ∃ fs' : FSState,
      mainStep fs (MenuAction.newCode raw sel ts (Except.ok code) pv fm cp ex) =
        StepResult.next fs' ∧
      fs'.files =
        writeCode fs.files (getFilename (jsTrim raw) (extOf (languageSelector sel))) code := by
  cases hh : saveHistory fs.hist ts (jsTrim raw) code (languageSelector sel)
      (getFilename (jsTrim raw) (extOf (languageSelector sel))) with
  | error e =>
    refine ⟨⟨writeCode fs.files (getFilename (jsTrim raw) (extOf (languageSelector sel))) code,
      fs.hist⟩, ?_, rfl⟩
    simp [mainStep, hh]
  | ok h =>
    refine ⟨⟨writeCode fs.files (getFilename (jsTrim raw) (extOf (languageSelector sel))) code,
      h⟩, ?_, rfl⟩
    simp [mainStep, hh]

/-! ## Claims -/

/-- C1: a history log built by any sequence of append operations,
read back through the history view, yields exactly the last
`min(5, length)` entries in insertion order with every field unchanged
(each displayed entry is `recordEntry` of the corresponding append
input); and the view on an absent backing file is the empty sequence,
not an error. -/
theorem C1_append_then_view :
    viewHistory HistFile.absent = Except.ok [] ∧
    ∀ rs : List GenRecord, ∃ f : HistFile,
      appendAll HistFile.absent rs = Except.ok f ∧
      viewHistory f = Except.ok ((rs.map recordEntry).drop (rs.length - 5)) ∧
      ((rs.map recordEntry).drop (rs.length - 5)).length = min 5 rs.length := by
  refine ⟨rfl, fun rs => ?_⟩
  cases rs with
  | nil => exact ⟨HistFile.absent, rfl, rfl, rfl⟩
  | cons r rs =>
    refine ⟨HistFile.wellFormed ((r :: rs).map recordEntry), ?_, ?_, ?_⟩
    · have h1 : appendAll HistFile.absent (r :: rs) =
          appendAll (HistFile.wellFormed [recordEntry r]) rs := rfl
      rw [h1, appendAll_wellFormed]
      simp [recordEntry]
    · simp [viewHistory]
    · simp only [List.length_drop, List.length_map, List.length_cons]
      omega

/-- C2: when the generation call rejects, the new-code iteration
returns to the main menu with the state (files and history file)
unchanged: nothing is written and nothing is appended. -/
theorem C2_generation_failure_state_unchanged :
    ∀ (fs : FSState) (raw : String) (sel : Option Nat) (ts err : String)
      (pv fm cp : Bool) (ex : String → Except String String),
      mainStep fs (MenuAction.newCode raw sel ts (Except.error err) pv fm cp ex) =
        StepResult.next fs := by
  intros
  rfl

/-- C3: `saveHistory` loads the current log (empty when the backing
file is absent), appends the single new entry at the end, and the
rewritten file deserializes to the old sequence followed by that entry;
existing entries are untouched. -/
theorem C3_saveHistory_is_append :
    ∀ ts prompt code lang file : String,
      saveHistory HistFile.absent ts prompt code lang file =
        Except.ok (HistFile.wellFormed [⟨ts, prompt, lang, file⟩]) ∧
      ∀ l : List HistoryEntry,
        saveHistory (HistFile.wellFormed l) ts prompt code lang file =
          Except.ok (HistFile.wellFormed (l ++ [⟨ts, prompt, lang, file⟩])) := by
  intros
  exact ⟨rfl, fun l => rfl⟩

/-- C4: filename derivation is deterministic and agrees with the
spec's description (lowercase, then replace characters outside
`[a-z0-9]` with underscores — the source replaces case-insensitively
first and lowercases second, and the two orders coincide), and the
prompt "Fibonacci function!!" with Python derives
`generated/fibonacci_function__.py`. -/
theorem C4_filename_derivation :
    (∀ base : String, sanitize base = sanitizeSpec base) ∧
    extOf "Python" = ".py" ∧
    getFilename "Fibonacci function!!" (extOf "Python") =
      pathJoin outputDir "fibonacci_function__.py" := by
  refine ⟨sanitize_eq_sanitizeSpec, rfl, ?_⟩
  decide

/-- C5 counterexample: the prompt "sort   list" (three spaces) does
NOT normalize to `sort_list.py` — the global per-character replacement
produces `sort___list.py`, a different file from the one derived from
"Sort list". -/
theorem C5_counterexample :
    getFilename "sort   list" (extOf "Python") =
      pathJoin outputDir "sort___list.py" ∧
    getFilename "Sort list" (extOf "Python") =
      pathJoin outputDir "sort_list.py" ∧
    getFilename "sort   list" (extOf "Python") ≠
      getFilename "Sort list" (extOf "Python") := by
  refine ⟨by decide, by decide, by decide⟩

/-- C5 amended: prompts "Sort list" and "sort list" (single space),
with the same language, normalize to the same filename `sort_list{ext}`
("sort   list" with three spaces instead yields `sort___list`), and a
second generation with the same normalized prompt overwrites the first
file's content — collisions are not detected. -/
theorem C5_amended_same_name_overwrites :
    (sanitize (jsTrim "Sort list") = "sort_list" ∧
     sanitize (jsTrim "sort list") = "sort_list" ∧
     sanitize (jsTrim "sort   list") = "sort___list") ∧
    ∀ (fs : FSState) (sel : Option Nat) (ts1 ts2 c1 c2 : String)
      (pv1 fm1 cp1 pv2 fm2 cp2 : Bool) (ex : String → Except String String),
      ∃ fs1 fs2 : FSState,
        mainStep fs (MenuAction.newCode "Sort list" sel ts1 (Except.ok c1) pv1 fm1 cp1 ex) =
          StepResult.next fs1 ∧
        fs1.files (getFilename (jsTrim "Sort list") (extOf (languageSelector sel))) =
          some c1 ∧
        mainStep fs1 (MenuAction.newCode "sort list" sel ts2 (Except.ok c2) pv2 fm2 cp2 ex) =
          StepResult.next fs2 ∧
        fs2.files (getFilename (jsTrim "Sort list") (extOf (languageSelector sel))) =
          some c2 := by
  refine ⟨⟨by decide, by decide, by decide⟩, ?_⟩
  intro fs sel ts1 ts2 c1 c2 pv1 fm1 cp1 pv2 fm2 cp2 ex
  have hname : getFilename (jsTrim "sort list") (extOf (languageSelector sel)) =
      getFilename (jsTrim "Sort list") (extOf (languageSelector sel)) := by
    unfold getFilename
    rw [show sanitize (jsTrim "sort list") = sanitize (jsTrim "Sort list") by decide]
  obtain ⟨fs1, hstep1, hfiles1⟩ :=
    mainStep_newCode_ok fs "Sort list" sel ts1 c1 pv1 fm1 cp1 ex
  obtain ⟨fs2, hstep2, hfiles2⟩ :=
    mainStep_newCode_ok fs1 "sort list" sel ts2 c2 pv2 fm2 cp2 ex
  refine ⟨fs1, fs2, hstep1, ?_, hstep2, ?_⟩
  · rw [hfiles1]
    simp [writeCode]
  · rw [hfiles2, hname]
    simp [writeCode]

/-- C6 counterexample: with no files on disk and no history, choosing
the gist branch with a filename that does not exist makes
`fs.readFileSync` throw outside any try/catch, and the loop iteration
ends in a crash — the session terminates although the user never chose
exit, refuting the claim that every failure returns to the main menu. -/
theorem C6_counterexample :
    mainStep ⟨fun _ => none, HistFile.absent⟩
        (MenuAction.gist "tok" "desc" false "missing.txt" (Except.ok "resp")) =
      StepResult.crashed ∧
    StepResult.crashed ≠ StepResult.exited := by
  exact ⟨rfl, fun h => StepResult.noConfusion h⟩

/-- C6 amended: failures inside the new-code branch's try/catch
(generation rejection) are reported and return to the main menu with
the state unchanged, the gist branch returns to the menu whenever the
named file is readable (the publish call catches its own errors), and a
well-formed or absent history view returns to the menu; but a missing
file in the gist branch and a malformed history file in the view branch
throw outside any try/catch and terminate the loop, while the exit
choice is the only normal termination. -/
theorem C6_amended_failure_routing :
    (∀ (fs : FSState) (raw : String) (sel : Option Nat) (ts err : String)
       (pv fm cp : Bool) (ex : String → Except String String),
       mainStep fs (MenuAction.newCode raw sel ts (Except.error err) pv fm cp ex) =
         StepResult.next fs) ∧
    (∀ (fs : FSState) (tok desc : String) (priv : Bool) (fname : String)
       (post : Except String String) (code : String),
       fs.files fname = some code →
       mainStep fs (MenuAction.gist tok desc priv fname post) = StepResult.next fs) ∧
    (∀ (fs : FSState) (tok desc : String) (priv : Bool) (fname : String)
       (post : Except String String),
       fs.files fname = none →
       mainStep fs (MenuAction.gist tok desc priv fname post) = StepResult.crashed) ∧
    (∀ fs : FSState, fs.hist = HistFile.absent →
       mainStep fs MenuAction.viewHist = StepResult.next fs) ∧
    (∀ (fs : FSState) (l : List HistoryEntry), fs.hist = HistFile.wellFormed l →
       mainStep fs MenuAction.viewHist = StepResult.next fs) ∧
    (∀ fs : FSState, fs.hist = HistFile.malformed →
       mainStep fs MenuAction.viewHist = StepResult.crashed) ∧
    (∀ fs : FSState, mainStep fs MenuAction.exitChoice = StepResult.exited) := by
  refine ⟨fun _ _ _ _ _ _ _ _ _ => rfl, ?_, ?_, ?_, ?_, ?_, fun _ => rfl⟩
  · intro fs tok desc priv fname post code h
    simp [mainStep, h]
  · intro fs tok desc priv fname post h
    simp [mainStep, h]
  · intro fs h
    simp [mainStep, viewHistory, h]
  · intro fs l h
    simp [mainStep, viewHistory, h]
  · intro fs h
    simp [mainStep, viewHistory, h]

/-- Witness for the amended C6 at concrete states: a readable file
returns to the menu, and a malformed history file crashes the view. -/
theorem C6_amended_witness :
    mainStep ⟨fun p => if p = "a.py" then some "x" else none, HistFile.absent⟩
        (MenuAction.gist "tok" "d" true "a.py" (Except.error "401")) =
      StepResult.next ⟨fun p => if p = "a.py" then some "x" else none, HistFile.absent⟩ ∧
    mainStep ⟨fun _ => none, HistFile.malformed⟩ MenuAction.viewHist =
      StepResult.crashed := by
  constructor
  · exact C6_amended_failure_routing.2.1
      ⟨fun p => if p = "a.py" then some "x" else none, HistFile.absent⟩
      "tok" "d" true "a.py" (Except.error "401") "x" (by simp)
  · exact C6_amended_failure_routing.2.2.2.2.2.1
      ⟨fun _ => none, HistFile.malformed⟩ rfl

/-- C7: the formatter probe never throws to its caller — for every
language and every behavior of the probed binary it returns an `ok`
result — and for each supported language it returns the formatter
command when the version invocation succeeds and `null` (`none`) when
the binary fails or is absent. -/
theorem C7_checkFormatter_total :
    ∀ (lang : String) (ex : String → Except String String),
      (∃ r : Option String, checkFormatter lang ex = Except.ok r) ∧
      ∀ f : FormatterSpec, formatters lang = some f →
        (∀ out, ex (headWord f.cmd ++ " --version") = Except.ok out →
           checkFormatter lang ex = Except.ok (some f.cmd)) ∧
        (∀ err, ex (headWord f.cmd ++ " --version") = Except.error err →
           checkFormatter lang ex = Except.ok none) := by
  intro lang ex
  constructor
  · cases hf : formatters lang with
    | none => exact ⟨none, by simp [checkFormatter, hf]⟩
    | some f =>
      cases hx : ex (headWord f.cmd ++ " --version") with
      | error e => exact ⟨none, by simp [checkFormatter, hf, hx]⟩
      | ok out => exact ⟨some f.cmd, by simp [checkFormatter, hf, hx]⟩
  · intro f hf
    constructor
    · intro out hx
      simp [checkFormatter, hf, hx]
    · intro err hx
      simp [checkFormatter, hf, hx]

/-- Witness for C7 with Python: a failing binary yields the
unavailable result, a succeeding one yields the command "black". -/
theorem C7_witness :
    checkFormatter "Python" (fun _ => Except.error "ENOENT") = Except.ok none ∧
    checkFormatter "Python" (fun _ => Except.ok "black, 24.4") =
      Except.ok (some "black") := by
  constructor
  · exact ((C7_checkFormatter_total "Python" (fun _ => Except.error "ENOENT")).2
      ⟨"black", ".py"⟩ rfl).2 "ENOENT" rfl
  · exact ((C7_checkFormatter_total "Python" (fun _ => Except.ok "black, 24.4")).2
      ⟨"black", ".py"⟩ rfl).1 "black, 24.4" rfl

/-- C8: the gist request holds exactly one file entry, keyed by the
given filename with the file's content, its public flag is the negation
of the privacy answer, and the credential is sent as a
`token`-authorization header to the gists endpoint. -/
theorem C8_gist_request_shape :
    ∀ (filename code token description : String) (isPrivate : Bool),
      (createGistRequest filename code token description isPrivate).payload.files =
        [(filename, code)] ∧
      (createGistRequest filename code token description isPrivate).payload.isPublic =
        !isPrivate ∧
      (createGistRequest filename code token description isPrivate).authHeader =
        "token " ++ token ∧
      (createGistRequest filename code token description isPrivate).url =
        "https://api.github.com/gists" := by
  intros
  exact ⟨rfl, rfl, rfl, rfl⟩

/-- C9: for every persisted log the view shows the suffix
`slice(-5)` — at most five entries, exactly `min(5, length)` of them,
and position `j` of the display is position `length - 5 + j` of the
log, so entries earlier than the last five are never displayed. -/
theorem C9_view_shows_only_last_five :
    ∀ l : List HistoryEntry,
      viewHistory (HistFile.wellFormed l) = Except.ok (l.drop (l.length - 5)) ∧
      (l.drop (l.length - 5)).length = min 5 l.length ∧
      ∀ j : Nat, (l.drop (l.length - 5))[j]? = l[l.length - 5 + j]? := by
  intro l
  refine ⟨rfl, ?_, fun j => List.getElem?_drop l (l.length - 5) j⟩
  rw [List.length_drop]
  omega

/-- C10: a prompt that is empty after trimming derives exactly the
bare extension under the output directory, a prompt consisting only of
characters outside the (case-insensitive) `[a-z0-9]` class derives an
all-underscore base name, and a new-code iteration with the empty
prompt still proceeds and writes the generated code at that bare-extension
path. -/
theorem C10_degenerate_prompts :
    (∀ ext : String, getFilename "" ext = pathJoin outputDir ext) ∧
    (∀ base : String, (∀ c ∈ base.data, isAlnumCI c = false) →
       (sanitize base).data = List.replicate base.length '_') ∧
    (∀ (fs : FSState) (sel : Option Nat) (ts code : String)
       (pv fm cp : Bool) (ex : String → Except String String),
       ∃ fs' : FSState,
         mainStep fs (MenuAction.newCode "" sel ts (Except.ok code) pv fm cp ex) =
           StepResult.next fs' ∧
         fs'.files (pathJoin outputDir (extOf (languageSelector sel))) = some code) := by
  have hempty : ∀ ext : String, getFilename "" ext = pathJoin outputDir ext := by
    intro ext
    show pathJoin outputDir (sanitize "" ++ ext) = pathJoin outputDir ext
    rw [show sanitize "" = "" from rfl]
    rw [String.empty_append]
  refine ⟨hempty, ?_, ?_⟩
  · intro base h
    show ((replaceUnsafe base.data).map toLowerJS) = List.replicate base.length '_'
    have hmap : ∀ c ∈ base.data, toLowerJS (if isAlnumCI c then c else '_') = '_' := by
      intro c hc
      rw [h c hc, if_neg (by simp)]
      decide
    rw [replaceUnsafe, List.map_map]
    rw [List.eq_replicate_iff]
    refine ⟨by rw [List.length_map]; rfl, ?_⟩
    intro b hb
    obtain ⟨c, hc, rfl⟩ := List.mem_map.mp hb
    simpa [Function.comp] using hmap c hc
  · intro fs sel ts code pv fm cp ex
    obtain ⟨fs', hstep, hfiles⟩ := mainStep_newCode_ok fs "" sel ts code pv fm cp ex
    refine ⟨fs', hstep, ?_⟩
    rw [hfiles]
    rw [show jsTrim "" = "" from rfl, hempty]
    simp [writeCode]

/-- Witness for C10 at a concrete all-punctuation prompt. -/
theorem C10_witness :
    (sanitize "!!!").data = List.replicate ("!!!" : String).length '_' :=
  C10_degenerate_prompts.2.1 "!!!" (by decide)
